import Mathlib

/-!
Verification development for the `stt-audio-preprocess` repository.

The Python sources under `src/` are shallowly embedded below:
* float samples are modelled as rational numbers (`ℚ`); the floating-point
  representation itself is outside the model,
* `numpy` arrays are lists (`List ℚ`) or lists of rows (`List (List ℚ)`),
* external libraries (librosa resampling, the noisereduce denoiser, the Silero
  VAD model, the Azure SDK clients, JSON and base64 decoding) are modelled as
  oracle parameters or pre-decoded values: the code under verification only
  routes their results,
* Python exceptions are modelled with `Except`, and Python `int()` truncation
  of a nonnegative float quotient is natural-number division (for possibly
  negative values, `Int.tdiv`, which rounds toward zero exactly as `int()`).
-/

set_option linter.unusedVariables false
set_option maxRecDepth 8000

namespace SttAudio

/-! ### Data model: `ProcessingStats` (src/audio_processor.py, class ProcessingStats) -/

/-- Mirrors the `ProcessingStats` dataclass with its field defaults. -/
structure ProcessingStats where
  original_duration_ms : ℤ := 0
  final_duration_ms : ℤ := 0
  original_sample_rate : ℤ := 0
  original_channels : ℤ := 0
  speech_segments : ℤ := 0
  silence_removed_ms : ℤ := 0
  noise_reduced : Bool := false
  normalized : Bool := false
  stages_completed : List String := []
deriving Repr, DecidableEq

/-- The `compression_ratio` property of `ProcessingStats`:
`0.0` when `original_duration_ms == 0`, otherwise `1 - final/original`.
It is a total function: the zero case never divides. -/
def compression_ratio (s : ProcessingStats) : ℚ :=
  if s.original_duration_ms = 0 then 0
  else 1 - (s.final_duration_ms : ℚ) / (s.original_duration_ms : ℚ)

/-! ### Speech segments (dicts with `start`/`end` sample indices) -/

/-- A speech segment `[start, end)` in samples; the Python dict keys are
`start` and `end` (`end` is a Lean keyword, hence `stop`). -/
structure Seg where
  start : ℕ
  stop : ℕ
deriving Repr, DecidableEq

/-- Python slice `audio[a:b]` for nonnegative indices (clamping semantics:
out-of-range and inverted bounds yield a short or empty list). -/
def pySlice (l : List ℚ) (a b : ℕ) : List ℚ :=
  (l.drop a).take (b - a)

/-! ### `AudioProcessor._compress_silences` (src/audio_processor.py lines 301-336) -/

/-- The loop body of `_compress_silences`: for each segment append
`audio[start:end]`; between consecutive segments append either a block of
`keep_samples` zeros (gap longer than `max_gap_samples`, accumulating
`gap_length - keep_samples` removed samples) or the original gap verbatim
(`0 < gap_length ≤ max_gap_samples`).  Returns the concatenated chunks and
the accumulated removed-sample count `total_removed`. -/
def compressLoop (audio : List ℚ) (maxGapSamples keepSamples : ℕ) :
    List Seg → List ℚ × ℤ
  | [] => ([], 0)
  | [s] => (pySlice audio s.start s.stop, 0)
  | s :: s' :: rest =>
    let tail := compressLoop audio maxGapSamples keepSamples (s' :: rest)
    let gapLength : ℤ := (s'.start : ℤ) - (s.stop : ℤ)
    let gapChunk : List ℚ × ℤ :=
      if gapLength > (maxGapSamples : ℤ) then
        (List.replicate keepSamples 0, gapLength - (keepSamples : ℤ))
      else if gapLength > 0 then
        (pySlice audio s.stop s'.start, 0)
      else ([], 0)
    (pySlice audio s.start s.stop ++ gapChunk.1 ++ tail.1, gapChunk.2 + tail.2)

/-- `AudioProcessor._compress_silences(audio, speech_segments, sr)`:
returns `(audio, 0)` for an empty segment list, otherwise runs the loop with
`max_gap_samples = int(max_gap_ms * sr / 1000)` and
`keep_samples = int(keep_ms * sr / 1000)` and converts the removed-sample
count to ms via `int(total_removed * 1000 / sr)` (truncation toward zero). -/
def compressSilences (maxGapMs keepMs : ℕ) (sr : ℕ) (audio : List ℚ)
    (segs : List Seg) : List ℚ × ℤ :=
  if segs.isEmpty then (audio, 0)
  else
    let maxGapSamples : ℕ := maxGapMs * sr / 1000
    let keepSamples : ℕ := keepMs * sr / 1000
    let r := compressLoop audio maxGapSamples keepSamples segs
    (r.1, Int.tdiv (r.2 * 1000) (sr : ℤ))

/-! Specification-shaped description of the compression output: the segment
slices in order, interleaved with one gap block per consecutive pair. -/

/-- What goes in place of the inter-segment gap `[a, b)`:
`keep_samples` zeros when the gap exceeds `max_gap_samples`, the original
samples otherwise (an empty slice when the gap is empty). -/
def gapBlock (audio : List ℚ) (maxGapSamples keepSamples : ℕ) (a b : ℕ) :
    List ℚ :=
  if (b : ℤ) - (a : ℤ) > (maxGapSamples : ℤ) then List.replicate keepSamples 0
  else pySlice audio a b

/-- Removed-sample contribution of the gap `[a, b)`:
`gap_length - keep_samples` when compressed, `0` otherwise. -/
def gapRemoved (maxGapSamples keepSamples : ℕ) (a b : ℕ) : ℤ :=
  if (b : ℤ) - (a : ℤ) > (maxGapSamples : ℤ) then
    ((b : ℤ) - (a : ℤ)) - (keepSamples : ℤ)
  else 0

/-- The expected output: every segment copied in full, concatenated in
segment order, each followed by the block standing for the gap to the next
segment. -/
def expectedOut (audio : List ℚ) (maxGapSamples keepSamples : ℕ)
    (segs : List Seg) : List ℚ :=
  (List.zipWith (fun s g => pySlice audio s.start s.stop ++ g) segs
    (((segs.zip segs.tail).map fun p =>
        gapBlock audio maxGapSamples keepSamples p.1.stop p.2.start) ++ [[]])).flatten

/-- The expected removed-sample accumulator: the sum over consecutive
segment pairs of the per-gap contribution. -/
def expectedRemoved (maxGapSamples keepSamples : ℕ) (segs : List Seg) : ℤ :=
  ((segs.zip segs.tail).map fun p =>
    gapRemoved maxGapSamples keepSamples p.1.stop p.2.start).sum

lemma compressLoop_eq_expected (audio : List ℚ) (maxG keepS : ℕ) :
    ∀ segs : List Seg,
      compressLoop audio maxG keepS segs =
        (expectedOut audio maxG keepS segs, expectedRemoved maxG keepS segs)
  | [] => rfl
  | [s] => by
    simp [compressLoop, expectedOut, expectedRemoved]
  | s :: s' :: rest => by
    have ih := compressLoop_eq_expected audio maxG keepS (s' :: rest)
    simp only [compressLoop, ih, expectedOut, expectedRemoved, gapBlock,
      gapRemoved, List.zip_cons_cons, List.tail_cons, List.map_cons,
      List.zipWith_cons_cons, List.flatten, List.sum_cons, Prod.mk.injEq]
    by_cases h1 : ((s'.start : ℤ) - (s.stop : ℤ)) > (maxG : ℤ)
    · simp [h1, List.zip]
    · by_cases h2 : ((s'.start : ℤ) - (s.stop : ℤ)) > 0
      · simp [h1, h2, List.zip]
      · have hz : pySlice audio s.stop s'.start = [] := by
          have : s'.start - s.stop = 0 := by omega
          simp [pySlice, this]
        simp [h1, h2, hz, List.zip]

/-- C1: silence compression.  For every buffer and every nonempty segment
list, the output of `_compress_silences` is exactly the segment slices copied
in full and concatenated in segment order, interleaved with one block per
consecutive pair of segments — `keep_samples` zeros when the gap exceeds
`max_gap_samples`, the original gap samples verbatim otherwise — and the
reported removed milliseconds is the accumulated removed-sample count
(`gap_length - keep_samples` per compressed gap) converted to ms at the
current rate. -/
theorem compress_silences_spec (maxGapMs keepMs sr : ℕ) (audio : List ℚ)
    (s : Seg) (rest : List Seg) :
    compressSilences maxGapMs keepMs sr audio (s :: rest) =
      (expectedOut audio (maxGapMs * sr / 1000) (keepMs * sr / 1000) (s :: rest),
       Int.tdiv
         (expectedRemoved (maxGapMs * sr / 1000) (keepMs * sr / 1000)
            (s :: rest) * 1000) (sr : ℤ)) := by
  simp [compressSilences, compressLoop_eq_expected]

/-! ### Segment-list validity (data-model invariant of `SpeechSegment`:
ordered by start index, non-overlapping, within the buffer) -/

/-- `validSegs len segs`: each segment satisfies `start ≤ stop`, consecutive
segments satisfy `stop ≤ next.start`, and the final `stop` is at most the
buffer length `len`. -/
def validSegs (len : ℕ) : List Seg → Bool
  | [] => true
  | [s] => decide (s.start ≤ s.stop) && decide (s.stop ≤ len)
  | s :: s' :: rest =>
    decide (s.start ≤ s.stop) && decide (s.stop ≤ s'.start) &&
      validSegs len (s' :: rest)

/-- The `stop` index of the last segment of a nonempty segment list. -/
def lastStop (s : Seg) (rest : List Seg) : ℕ :=
  ((s :: rest).getLast (List.cons_ne_nil s rest)).stop

lemma lastStop_cons (s s' : Seg) (rest : List Seg) :
    lastStop s (s' :: rest) = lastStop s' rest := by
  simp [lastStop, List.getLast_cons]

lemma validSegs_cons {len : ℕ} {s s' : Seg} {rest : List Seg}
    (h : validSegs len (s :: s' :: rest) = true) :
    s.start ≤ s.stop ∧ s.stop ≤ s'.start ∧
      validSegs len (s' :: rest) = true := by
  simp only [validSegs, Bool.and_eq_true, decide_eq_true_eq] at h
  exact ⟨h.1.1, h.1.2, h.2⟩

lemma validSegs_chain {len : ℕ} :
    ∀ (s : Seg) (rest : List Seg), validSegs len (s :: rest) = true →
      s.start ≤ s.stop ∧ s.stop ≤ lastStop s rest ∧ lastStop s rest ≤ len
  | s, [], h => by
    simp only [validSegs, Bool.and_eq_true, decide_eq_true_eq] at h
    exact ⟨h.1, le_refl _, by simpa [lastStop] using h.2⟩
  | s, s' :: rest, h => by
    obtain ⟨h1, h2, h3⟩ := validSegs_cons h
    obtain ⟨ih1, ih2, ih3⟩ := validSegs_chain s' rest h3
    rw [lastStop_cons]
    exact ⟨h1, le_trans h2 (le_trans ih1 ih2), ih3⟩

/-! ### Slices outside the segment span never influence the output -/

lemma pySlice_take {l : List ℚ} {a b hi : ℕ} (hb : b ≤ hi) :
    pySlice (l.take hi) a b = pySlice l a b := by
  simp only [pySlice, List.drop_take, List.take_take]
  congr 1
  omega

lemma pySlice_mask_lo {l : List ℚ} {a b lo : ℕ} (c : ℚ) (ha : lo ≤ a) :
    pySlice (List.replicate lo c ++ l.drop lo) a b = pySlice l a b := by
  simp only [pySlice]
  congr 1
  have h1 : a = List.length (List.replicate lo c) + (a - lo) := by
    simp [List.length_replicate]; omega
  rw [h1, List.drop_append, List.drop_drop]
  congr 1
  omega

lemma compressLoop_congr {audio audio' : List ℚ} {maxG keepS len : ℕ} :
    ∀ (s : Seg) (rest : List Seg) (lo : ℕ),
      validSegs len (s :: rest) = true →
      lo ≤ s.start →
      (∀ a b : ℕ, lo ≤ a → b ≤ lastStop s rest →
        pySlice audio' a b = pySlice audio a b) →
      compressLoop audio' maxG keepS (s :: rest) =
        compressLoop audio maxG keepS (s :: rest)
  | s, [], lo, hv, hlo, hsl => by
    obtain ⟨h1, h2, h3⟩ := validSegs_chain s [] hv
    simp only [compressLoop]
    rw [hsl s.start s.stop hlo h2]
  | s, s' :: rest, lo, hv, hlo, hsl => by
    obtain ⟨h1, h2, h3⟩ := validSegs_cons hv
    obtain ⟨c1, c2, c3⟩ := validSegs_chain s (s' :: rest) hv
    obtain ⟨d1, d2, d3⟩ := validSegs_chain s' rest h3
    have hstop : lastStop s (s' :: rest) = lastStop s' rest := lastStop_cons ..
    have ih := @compressLoop_congr audio audio' maxG keepS len s' rest lo h3
      (le_trans hlo (le_trans h1 h2))
      (fun a b hla hlb => hsl a b hla (by rw [hstop]; exact hlb))
    simp only [compressLoop, ih]
    rw [hsl s.start s.stop hlo (by rw [hstop] at c2 ⊢; exact c2),
      hsl s.stop s'.start (le_trans hlo h1)
        (by rw [hstop]; exact le_trans d1 d2)]

/-- C9: for a nonempty, ordered, in-bounds segment list, the compression
output never contains audio from before the first segment's start or after
the last segment's stop: replacing the leading region by an arbitrary
constant, or cutting the buffer at the last segment's stop, leaves the result
(output and removed count) unchanged; and the removed-sample count reported
as `silence_removed_ms` is exactly the sum over inter-segment gaps — the
dropped leading/trailing samples are not added to it. -/
theorem compress_silences_drops_edges (maxGapMs keepMs sr : ℕ)
    (audio : List ℚ) (c : ℚ) (s : Seg) (rest : List Seg)
    (h : validSegs audio.length (s :: rest) = true) :
    compressSilences maxGapMs keepMs sr
        (List.replicate s.start c ++ audio.drop s.start) (s :: rest) =
      compressSilences maxGapMs keepMs sr audio (s :: rest)
    ∧ compressSilences maxGapMs keepMs sr (audio.take (lastStop s rest))
        (s :: rest) =
      compressSilences maxGapMs keepMs sr audio (s :: rest)
    ∧ (compressSilences maxGapMs keepMs sr audio (s :: rest)).2 =
      Int.tdiv (expectedRemoved (maxGapMs * sr / 1000) (keepMs * sr / 1000)
        (s :: rest) * 1000) (sr : ℤ) := by
  refine ⟨?_, ?_, ?_⟩
  · have hc := @compressLoop_congr audio
      (List.replicate s.start c ++ audio.drop s.start)
      (maxGapMs * sr / 1000) (keepMs * sr / 1000) audio.length s rest s.start
      h (le_refl _) (fun a b ha hb => pySlice_mask_lo c ha)
    simp [compressSilences, hc]
  · have hc := @compressLoop_congr audio (audio.take (lastStop s rest))
      (maxGapMs * sr / 1000) (keepMs * sr / 1000) audio.length s rest s.start
      h (le_refl _) (fun a b ha hb => pySlice_take hb)
    simp [compressSilences, hc]
  · simp [compressSilences, compressLoop_eq_expected]

theorem compress_silences_drops_edges_witness :
    validSegs (([1, 2, 3, 4, 5] : List ℚ).length)
        [⟨1, 2⟩, ⟨3, 4⟩] = true ∧
    compressSilences 1000 0 1000
        (List.replicate 1 7 ++ ([1, 2, 3, 4, 5] : List ℚ).drop 1)
        [⟨1, 2⟩, ⟨3, 4⟩] =
      compressSilences 1000 0 1000 [1, 2, 3, 4, 5] [⟨1, 2⟩, ⟨3, 4⟩] :=
  ⟨by decide,
   (compress_silences_drops_edges 1000 0 1000 [1, 2, 3, 4, 5] 7 ⟨1, 2⟩
      [⟨3, 4⟩] (by decide)).1⟩

/-! ### Output length never grows when `keep_samples ≤ max_gap_samples` -/

lemma pySlice_length_le (l : List ℚ) (a b : ℕ) :
    (pySlice l a b).length ≤ b - a := by
  simp only [pySlice, List.length_take, List.length_drop]
  omega

lemma compressLoop_length_le {audio : List ℚ} {maxG keepS : ℕ}
    (hk : keepS ≤ maxG) :
    ∀ (s : Seg) (rest : List Seg),
      validSegs audio.length (s :: rest) = true →
      (compressLoop audio maxG keepS (s :: rest)).1.length + s.start ≤
        lastStop s rest
  | s, [], hv => by
    obtain ⟨h1, _, _⟩ := validSegs_chain s [] hv
    have hl := pySlice_length_le audio s.start s.stop
    simp only [compressLoop, lastStop, List.getLast_singleton]
    omega
  | s, s' :: rest, hv => by
    obtain ⟨h1, h2, h3⟩ := validSegs_cons hv
    obtain ⟨d1, d2, d3⟩ := validSegs_chain s' rest h3
    have ih := @compressLoop_length_le audio maxG keepS hk s' rest h3
    have hl := pySlice_length_le audio s.start s.stop
    have hg := pySlice_length_le audio s.stop s'.start
    rw [lastStop_cons]
    simp only [compressLoop, List.length_append]
    by_cases hg1 : ((s'.start : ℤ) - (s.stop : ℤ)) > (maxG : ℤ)
    · simp only [hg1, if_pos, List.length_replicate]
      omega
    · by_cases hg2 : ((s'.start : ℤ) - (s.stop : ℤ)) > 0
      · simp only [hg1, hg2, if_neg, if_pos, not_false_iff]
        omega
      · simp only [hg1, hg2, if_neg, not_false_iff, List.length_nil]
        omega

/-- C6 (amended): whenever the configured keep duration does not exceed the
configured maximum gap (`keep_ms ≤ max_gap_ms`, as with the defaults
150 ≤ 600) and the segment list respects the `SpeechSegment` invariant
(ordered, non-overlapping, within the buffer), silence compression never
lengthens the buffer: `final_duration_ms ≤ original_duration_ms`, and the
`compression_ratio` of the resulting stats lies in `[0, 1]` whenever
`original_duration_ms > 0`. -/
theorem compression_ratio_in_unit_interval (maxGapMs keepMs sr : ℕ)
    (audio : List ℚ) (segs : List Seg) (hk : keepMs ≤ maxGapMs)
    (hv : validSegs audio.length segs = true) :
    (compressSilences maxGapMs keepMs sr audio segs).1.length * 1000 / sr ≤
      audio.length * 1000 / sr
    ∧ ∀ st : ProcessingStats,
        st.original_duration_ms = ((audio.length * 1000 / sr : ℕ) : ℤ) →
        st.final_duration_ms =
          (((compressSilences maxGapMs keepMs sr audio segs).1.length *
            1000 / sr : ℕ) : ℤ) →
        0 < st.original_duration_ms →
        0 ≤ compression_ratio st ∧ compression_ratio st ≤ 1 := by
  have hk' : keepMs * sr / 1000 ≤ maxGapMs * sr / 1000 :=
    Nat.div_le_div_right (Nat.mul_le_mul_right sr hk)
  have hlen : (compressSilences maxGapMs keepMs sr audio segs).1.length ≤
      audio.length := by
    match segs with
    | [] => simp [compressSilences]
    | s :: rest =>
      obtain ⟨_, _, h3⟩ := validSegs_chain s rest hv
      have := @compressLoop_length_le audio (maxGapMs * sr / 1000)
        (keepMs * sr / 1000) hk' s rest hv
      simp only [compressSilences, List.isEmpty_cons, Bool.false_eq_true,
        if_false]
      omega
  have hdiv : (compressSilences maxGapMs keepMs sr audio segs).1.length *
      1000 / sr ≤ audio.length * 1000 / sr :=
    Nat.div_le_div_right (Nat.mul_le_mul_right 1000 hlen)
  refine ⟨hdiv, fun st h1 h2 hpos => ?_⟩
  have hne : st.original_duration_ms ≠ 0 := by omega
  have hoQ : (0 : ℚ) < (st.original_duration_ms : ℚ) := by exact_mod_cast hpos
  have hfQ : (0 : ℚ) ≤ (st.final_duration_ms : ℚ) := by
    rw [h2]; positivity
  have hle : (st.final_duration_ms : ℚ) ≤ (st.original_duration_ms : ℚ) := by
    rw [h1, h2]
    exact_mod_cast hdiv
  rw [compression_ratio, if_neg hne]
  constructor
  · rw [sub_nonneg]
    exact (div_le_one hoQ).mpr hle
  · exact sub_le_self _ (div_nonneg hfQ hoQ.le)

theorem compression_ratio_in_unit_interval_witness :
    150 ≤ 600 ∧
    validSegs (([1, 0, 2, 0] : List ℚ).length) [⟨0, 1⟩, ⟨2, 3⟩] = true ∧
    (0 ≤ compression_ratio
        { original_duration_ms := 4, final_duration_ms := 3 } ∧
      compression_ratio
        { original_duration_ms := 4, final_duration_ms := 3 } ≤ 1) :=
  ⟨by decide, by decide,
   (compression_ratio_in_unit_interval 600 150 1000 [1, 0, 2, 0]
      [⟨0, 1⟩, ⟨2, 3⟩] (by decide) (by decide)).2
     { original_duration_ms := 4, final_duration_ms := 3 }
     (by decide) (by decide) (by decide)⟩

/-- Concrete run refuting C6 as stated: sample rate 10 Hz,
`max_gap_ms = 100`, `keep_ms = 1000` (the configuration surface permits
this), a 5-sample buffer and segments `[0,1)`, `[3,4)`.  The inter-segment
gap of 2 samples exceeds `max_gap_samples = 1`, so it is replaced by
`keep_samples = 10` zeros: the output (12 samples) is longer than the input
(5 samples). -/
def c6Audio : List ℚ := List.replicate 5 0

def c6Segs : List Seg := [⟨0, 1⟩, ⟨3, 4⟩]

/-- The `ProcessingStats` of that run: `original_duration_ms` and
`final_duration_ms` computed from the buffer lengths at 10 Hz exactly as
`AudioProcessor.process` computes them. -/
def c6Stats : ProcessingStats :=
  { original_duration_ms := ((c6Audio.length * 1000 / 10 : ℕ) : ℤ),
    final_duration_ms :=
      (((compressSilences 100 1000 10 c6Audio c6Segs).1.length * 1000 /
        10 : ℕ) : ℤ),
    silence_removed_ms := (compressSilences 100 1000 10 c6Audio c6Segs).2 }

/-- C6 counterexample: a completed compression run with
`original_duration_ms = 500 > 0` whose compression ratio is negative
(final 1200 ms > original 500 ms), refuting the claim that the ratio always
lies in `[0, 1]`. -/
theorem compression_ratio_below_zero :
    validSegs c6Audio.length c6Segs = true ∧
    0 < c6Stats.original_duration_ms ∧
    compression_ratio c6Stats < 0 := by
  have h1 : c6Stats.original_duration_ms = 500 := by decide
  have h2 : c6Stats.final_duration_ms = 1200 := by decide
  refine ⟨by decide, by rw [h1]; norm_num, ?_⟩
  rw [compression_ratio, if_neg (by rw [h1]; norm_num), h1, h2]
  norm_num

/-- C10: the `compression_ratio` property is total — it is a Lean function,
so reading it never fails — and when `original_duration_ms = 0` it takes the
zero branch and returns `0.0` without dividing. -/
theorem compression_ratio_zero_duration (st : ProcessingStats)
    (h : st.original_duration_ms = 0) : compression_ratio st = 0 := by
  simp [compression_ratio, h]

theorem compression_ratio_zero_duration_witness :
    ({} : ProcessingStats).original_duration_ms = 0 ∧
    compression_ratio {} = 0 :=
  ⟨rfl, compression_ratio_zero_duration {} rfl⟩

/-! ### `AudioProcessor._normalize` (src/audio_processor.py lines 338-355)

The code computes `rms = sqrt(mean(audio**2))`, returns the buffer unchanged
when `rms == 0`, and otherwise derives a linear gain
`10 ** ((target_dbfs - 20*log10(rms + 1e-10)) / 20)`.  Square root, log and
power are transcendental, so the gain is abstracted as a parameter `gain`
(the theorems below hold for every rational gain, in particular for the one
the code computes); over exact arithmetic `rms == 0` is equivalent to the
sum of squares being zero. -/

/-- `np.max(np.abs(l))`, totalised with `0` for the empty list (on which the
numpy call would fault; every use below is guarded by `rms ≠ 0`, which
forces a nonempty buffer). -/
def peakOf (l : List ℚ) : ℚ :=
  (l.map fun x => |x|).foldr max 0

/-- `AudioProcessor._normalize`: pass through when the RMS is zero, otherwise
apply the linear gain and, if the resulting peak magnitude exceeds `0.99`,
rescale the whole buffer by `0.99 / peak`. -/
def normalize (gain : ℚ) (audio : List ℚ) : List ℚ :=
  if (audio.map fun x => x * x).sum = 0 then audio
  else
    let normalized := audio.map fun x => x * gain
    let peak := peakOf normalized
    if peak > 99 / 100 then normalized.map fun x => x * (99 / 100 / peak)
    else normalized

lemma peakOf_nonneg (l : List ℚ) : 0 ≤ peakOf l := by
  induction l with
  | nil => simp [peakOf]
  | cons x xs ih =>
    simp only [peakOf, List.map_cons, List.foldr_cons]
    exact le_trans ih (le_max_right _ _)

lemma peakOf_map_mul (l : List ℚ) (c : ℚ) :
    peakOf (l.map fun x => x * c) = peakOf l * |c| := by
  induction l with
  | nil => simp [peakOf]
  | cons x xs ih =>
    simp only [peakOf, List.map_cons, List.foldr_cons] at ih ⊢
    rw [ih, abs_mul, max_mul_of_nonneg _ _ (abs_nonneg c)]

lemma sum_sq_zero_all_zero {l : List ℚ}
    (h : (l.map fun x => x * x).sum = 0) : ∀ x ∈ l, x = 0 := by
  induction l with
  | nil => simp
  | cons y ys ih =>
    simp only [List.map_cons, List.sum_cons] at h
    have hy : 0 ≤ y * y := mul_self_nonneg y
    have hs : 0 ≤ (ys.map fun x => x * x).sum :=
      List.sum_nonneg fun a ha => by
        obtain ⟨b, _, rfl⟩ := List.mem_map.mp ha
        exact mul_self_nonneg b
    have hy0 : y * y = 0 := by linarith
    intro x hx
    rcases List.mem_cons.mp hx with rfl | hx'
    · exact mul_self_eq_zero.mp hy0
    · exact ih (by linarith) x hx'

lemma peakOf_all_zero {l : List ℚ} (h : ∀ x ∈ l, x = 0) : peakOf l = 0 := by
  induction l with
  | nil => rfl
  | cons y ys ih =>
    have hy := h y (List.mem_cons_self y ys)
    simp only [peakOf, List.map_cons, List.foldr_cons, hy, abs_zero]
    rw [show (ys.map fun x => |x|).foldr max 0 = peakOf ys from rfl,
      ih fun x hx => h x (List.mem_cons_of_mem y hx)]
    simp

/-- C3: for every gain (in particular the one the code derives from the
target dBFS) and every buffer, `_normalize` never produces a peak magnitude
above `0.99`; a zero-RMS buffer is returned unchanged (the gain — the only
quotient involving the RMS — is never computed in that branch); and whenever
the gained buffer's peak exceeds `0.99`, the output peak is exactly `0.99`. -/
theorem normalize_peak_bounded (gain : ℚ) (audio : List ℚ) :
    peakOf (normalize gain audio) ≤ 99 / 100
    ∧ ((audio.map fun x => x * x).sum = 0 → normalize gain audio = audio)
    ∧ ((audio.map fun x => x * x).sum ≠ 0 →
        peakOf (audio.map fun x => x * gain) > 99 / 100 →
        peakOf (normalize gain audio) = 99 / 100) := by
  by_cases hz : (audio.map fun x => x * x).sum = 0
  · refine ⟨?_, fun _ => by simp [normalize, hz], fun hne _ => absurd hz hne⟩
    rw [show normalize gain audio = audio from by simp [normalize, hz],
      peakOf_all_zero (sum_sq_zero_all_zero hz)]
    norm_num
  · have hkey : peakOf (audio.map fun x => x * gain) > 99 / 100 →
        peakOf (normalize gain audio) = 99 / 100 := by
      intro hp
      have hpos : 0 < peakOf (audio.map fun x => x * gain) :=
        lt_trans (by norm_num) hp
      have habs : |99 / 100 / peakOf (audio.map fun x => x * gain)| =
          99 / 100 / peakOf (audio.map fun x => x * gain) :=
        abs_of_nonneg (div_nonneg (by norm_num) hpos.le)
      simp only [normalize, hz, if_neg, if_pos hp, not_false_iff]
      rw [peakOf_map_mul, habs, mul_div_cancel₀ _ (ne_of_gt hpos)]
    refine ⟨?_, fun h => absurd h hz, fun _ => hkey⟩
    by_cases hp : peakOf (audio.map fun x => x * gain) > 99 / 100
    · exact le_of_eq (hkey hp)
    · simpa [normalize, hz, hp] using le_of_not_lt hp

theorem normalize_peak_bounded_witness :
    peakOf (normalize 1 [1]) ≤ 99 / 100
    ∧ normalize 2 [0] = [0]
    ∧ peakOf (normalize 1 [2]) = 99 / 100 :=
  ⟨(normalize_peak_bounded 1 [1]).1,
   (normalize_peak_bounded 2 [0]).2.1 (by norm_num),
   (normalize_peak_bounded 1 [2]).2.2 (by norm_num [peakOf])
     (by norm_num [peakOf])⟩

/-! ### Audio buffers (numpy arrays): 1-D or 2-D row-major -/

/-- A decoded numpy buffer: 1-D (`ndim == 1`) or 2-D (`ndim == 2`, a list of
rows in row-major order). -/
inductive Buf where
  | mono (samples : List ℚ)
  | multi (rows : List (List ℚ))
deriving Repr, DecidableEq

/-- numpy `len(audio)`: the length of the first axis. -/
def Buf.len0 : Buf → ℕ
  | .mono xs => xs.length
  | .multi rows => rows.length

/-- `audio.flatten()` (row-major). -/
def Buf.flat : Buf → List ℚ
  | .mono xs => xs
  | .multi rows => rows.flatten

/-- `np.mean(a, axis=0)` of a 2-D array: column means. -/
def meanAxis0 (rows : List (List ℚ)) : List ℚ :=
  rows.transpose.map fun col => col.sum / (col.length : ℚ)

/-- `np.mean(a, axis=1)` of a 2-D array: row means. -/
def meanAxis1 (rows : List (List ℚ)) : List ℚ :=
  rows.map fun r => r.sum / (r.length : ℚ)

/-- Stage 3 of `AudioProcessor.process` (src/audio_processor.py line 190):
`np.mean(audio, axis=0) if audio.shape[0] <= 2 else np.mean(audio, axis=1)`
— the channel axis is guessed from the first-axis length. -/
def toMono (rows : List (List ℚ)) : List ℚ :=
  if rows.length ≤ 2 then meanAxis0 rows else meanAxis1 rows

/-- Which axis of a 2-D buffer holds the channels. -/
inductive ChannelLayout where
  | samplesByChannels
  | channelsBySamples
deriving Repr, DecidableEq

/-- The per-sample average across the channel axis (what the spec asks the
downmix to compute): for a `(samples, channels)` array the mean of each row,
for a `(channels, samples)` array the mean of each column. -/
def channelAverage : ChannelLayout → List (List ℚ) → List ℚ
  | .samplesByChannels, rows => rows.map fun r => r.sum / (r.length : ℚ)
  | .channelsBySamples, rows =>
    rows.transpose.map fun col => col.sum / (col.length : ℚ)

/-- C7 counterexample: a `(channels, samples)` buffer with 3 channels and 4
samples.  The shape heuristic sees `shape[0] = 3 > 2` and averages axis 1 —
the sample axis — returning one value per channel (`[1, 2, 3]`) instead of
the per-sample channel average (`[2, 2, 2, 2]`). -/
theorem downmix_wrong_axis :
    toMono [[1, 1, 1, 1], [2, 2, 2, 2], [3, 3, 3, 3]] ≠
      channelAverage .channelsBySamples
        [[1, 1, 1, 1], [2, 2, 2, 2], [3, 3, 3, 3]] := by
  intro h
  have hlen := congrArg List.length h
  rw [show (toMono [[1, 1, 1, 1], [2, 2, 2, 2], [3, 3, 3, 3]]).length = 3
        from rfl,
    show (channelAverage .channelsBySamples
        [[1, 1, 1, 1], [2, 2, 2, 2], [3, 3, 3, 3]]).length = 4 from rfl]
    at hlen
  exact absurd hlen (by norm_num)

/-- C7 (amended): the downmix stage averages across axis 0 when the
first-axis length is at most 2 and across axis 1 otherwise; consequently it
equals the per-sample channel average exactly when the array is laid out as
`(samples, channels)` with at least 3 samples, or as `(channels, samples)`
with at most 2 channels — not for every layout and channel count. -/
theorem downmix_channel_average (layout : ChannelLayout)
    (rows : List (List ℚ)) :
    (layout = .samplesByChannels → 3 ≤ rows.length →
      toMono rows = channelAverage layout rows)
    ∧ (layout = .channelsBySamples → rows.length ≤ 2 →
      toMono rows = channelAverage layout rows) := by
  constructor
  · rintro rfl h
    rw [toMono, if_neg (by omega)]
    rfl
  · rintro rfl h
    rw [toMono, if_pos h]
    rfl

theorem downmix_channel_average_witness :
    toMono [[1, 2], [3, 4], [5, 6]] =
      channelAverage .samplesByChannels [[1, 2], [3, 4], [5, 6]] :=
  (downmix_channel_average .samplesByChannels [[1, 2], [3, 4], [5, 6]]).1
    rfl (by norm_num)

/-! ### `AudioProcessor._load_audio` (src/audio_processor.py lines 255-283)

The two decoders (`soundfile.read` and `librosa.load`) are external; each is
modelled by an optional result — `none` when that decoder would raise.  The
input bytes appear only through these oracles: the routing itself depends
only on the declared filename's extension. -/

/-- `filename.lower().rsplit(".", 1)[-1] if "." in filename else ""`.
Python string operations are modelled on the character list (`String.data`):
`lower()` maps `Char.toLower` and `rsplit(".", 1)[-1]` keeps the characters
after the last dot. -/
def extOf (filename : String) : String :=
  if filename.data.contains '.' then
    String.mk (((filename.data.map Char.toLower).reverse.takeWhile
      fun c => c ≠ '.').reverse)
  else ""

/-- `channels = 1 if audio.ndim == 1 else audio.shape[1]` (soundfile path). -/
def sfChannels : Buf → ℕ
  | .mono _ => 1
  | .multi rows => (rows.headD []).length

/-- The decode stage's failure.  The code raises the underlying decoder
exception; the spec's error taxonomy names this outcome `UnsupportedFormat`. -/
inductive DecodeError where
  | unsupportedFormat
deriving Repr, DecidableEq

/-- The librosa fallback path: `librosa.load(buffer, sr=None, mono=False)`;
a 1-D result is mono, a 2-D result is `(channels, samples)` and is
transposed to `(samples, channels)` with `channels = audio.shape[0]`. -/
def librosaBranch : Option (Buf × ℕ) → Except DecodeError (Buf × ℕ × ℕ)
  | none => .error .unsupportedFormat
  | some (.mono xs, sr) => .ok (.mono xs, sr, 1)
  | some (.multi rows, sr) => .ok (.multi rows.transpose, sr, rows.length)

/-- `AudioProcessor._load_audio`: for the simple extensions
(`wav`, `flac`, `ogg`) try `soundfile.read` first, falling back to librosa
if it raises; for every other extension go straight to librosa. -/
def loadAudio (filename : String) (sfRead librosaLoad : Option (Buf × ℕ)) :
    Except DecodeError (Buf × ℕ × ℕ) :=
  let ext := extOf filename
  if ext = "wav" ∨ ext = "flac" ∨ ext = "ogg" then
    match sfRead with
    | some (a, sr) => .ok (a, sr, sfChannels a)
    | none => librosaBranch librosaLoad
  else librosaBranch librosaLoad

/-- C8: the decode stage (a) fails with `UnsupportedFormat` exactly when
every decoder path it attempts fails — for the simple extensions both
decoders, otherwise the transcoding decoder (the only path attempted);
(b) infers the container from the declared filename's extension only (equal
extensions give equal behaviour; the bytes enter only through the decoder
oracles); (c) returns the direct decoder's result for `wav`/`flac`/`ogg`
when it succeeds; and (d) otherwise uses the transcoding fallback. -/
theorem load_audio_spec (filename : String)
    (sfRead librosaLoad : Option (Buf × ℕ)) :
    (loadAudio filename sfRead librosaLoad = .error .unsupportedFormat ↔
      ((extOf filename = "wav" ∨ extOf filename = "flac" ∨
          extOf filename = "ogg") → sfRead = none) ∧ librosaLoad = none)
    ∧ (∀ g : String, extOf g = extOf filename →
        loadAudio g sfRead librosaLoad = loadAudio filename sfRead librosaLoad)
    ∧ (∀ a sr,
        (extOf filename = "wav" ∨ extOf filename = "flac" ∨
          extOf filename = "ogg") →
        sfRead = some (a, sr) →
        loadAudio filename sfRead librosaLoad = .ok (a, sr, sfChannels a))
    ∧ (¬(extOf filename = "wav" ∨ extOf filename = "flac" ∨
          extOf filename = "ogg") →
        loadAudio filename sfRead librosaLoad = librosaBranch librosaLoad) := by
  refine ⟨?_, ?_, ?_, ?_⟩
  · by_cases he : extOf filename = "wav" ∨ extOf filename = "flac" ∨
        extOf filename = "ogg"
    · rcases sfRead with _ | ⟨a, sr⟩
      · rcases librosaLoad with _ | ⟨b, sr'⟩
        · simp [loadAudio, librosaBranch, he]
        · rcases b with xs | rows <;> simp [loadAudio, librosaBranch, he]
      · simp [loadAudio, he]
    · rcases librosaLoad with _ | ⟨b, sr'⟩
      · simp [loadAudio, librosaBranch, he]
      · rcases b with xs | rows <;> simp [loadAudio, librosaBranch, he]
  · intro g hg
    simp [loadAudio, hg]
  · intro a sr he hsf
    simp [loadAudio, he, hsf]
  · intro he
    simp [loadAudio, he]

theorem load_audio_spec_witness :
    extOf "a.wav" = "wav" ∧
    loadAudio "a.wav" (some (.mono [], 16000)) none =
      .ok (.mono [], 16000, 1) :=
  ⟨by decide,
   (load_audio_spec "a.wav" (some (.mono [], 16000)) none).2.2.1
     (.mono []) 16000 (.inl (by decide)) rfl⟩

/-! ### `AudioProcessor.process` (src/audio_processor.py lines 148-253) -/

/-- The configuration slice `process` reads (audio / vad / silence / noise /
normalize settings). -/
structure PipeCfg where
  targetSampleRate : ℕ
  targetChannels : ℕ
  noiseEnabled : Bool
  vadEnabled : Bool
  silenceEnabled : Bool
  normalizeEnabled : Bool
  maxGapMs : ℕ
  keepMs : ℕ
  targetDbfs : ℚ
deriving Repr, DecidableEq

/-- Float-to-int conversion `astype(np.int16)` after clipping: C-style
truncation toward zero. -/
def truncQ (x : ℚ) : ℤ :=
  if 0 ≤ x then ⌊x⌋ else ⌈x⌉

/-- `AudioProcessor._export_wav` sample encoding (lines 357-365):
`np.clip(audio * 32767, -32768, 32767).astype(np.int16)`.  The WAV container
written by `soundfile.write` is a fixed deterministic framing of these
samples at the given rate; the model keeps the int16 sample sequence. -/
def exportWav (audio : List ℚ) : List ℤ :=
  audio.map fun x => truncQ (min 32767 (max (-32768) (x * 32767)))

/-- Stage 3 of `process`: convert to mono when the buffer is 2-D and the
target channel count is 1 (lines 188-194). -/
def monoStage (tch : ℕ) : Buf → Buf
  | .mono xs => .mono xs
  | .multi rows => if tch = 1 then .mono (toMono rows) else .multi rows

/-- `AudioProcessor.process` after decoding: stages 2-7 plus export, over
the decoded `(audio, sample_rate, channels)` triple.  External computations
are oracles: `resampleO` (librosa polyphase resampling), `noiseO`
(noisereduce, including its internal failure-absorption), `vadO` (Silero
speech timestamps), `gainO` (the normalization gain derived from the target
dBFS).  Returns the exported int16 samples and the `ProcessingStats`
(the dBFS value in the normalize tag is printed with `toString`,
abstracting Python float formatting). -/
def process (cfg : PipeCfg) (decoded : Buf × ℕ × ℕ)
    (resampleO : Buf → ℕ → ℕ → Buf) (noiseO : List ℚ → ℕ → List ℚ)
    (vadO : List ℚ → ℕ → List Seg) (gainO : List ℚ → ℚ) :
    List ℤ × ProcessingStats :=
  let audio1 := decoded.1
  let sr1 := decoded.2.1
  let channels := decoded.2.2
  let origMs : ℕ := audio1.len0 * 1000 / sr1
  let tag1 := "loaded:" ++ toString sr1 ++ "Hz," ++ toString channels ++ "ch"
  -- Stage 2: resample
  let doResample : Bool := sr1 ≠ cfg.targetSampleRate
  let audio2 :=
    if doResample then resampleO audio1 sr1 cfg.targetSampleRate else audio1
  let sr2 := if doResample then cfg.targetSampleRate else sr1
  let tag2 :=
    if doResample then "resampled:" ++ toString cfg.targetSampleRate ++ "Hz"
    else "resample:skipped"
  -- Stage 3: convert to mono
  let doMono : Bool :=
    match audio2 with
    | .mono _ => false
    | .multi _ => cfg.targetChannels = 1
  let audio3 := monoStage cfg.targetChannels audio2
  let tag3 := if doMono then "mono:converted" else "mono:skipped"
  -- flatten + astype(float32)
  let audio4 := audio3.flat
  -- Stage 4: noise reduction
  let audio5 := if cfg.noiseEnabled then noiseO audio4 sr2 else audio4
  let tag4 :=
    if cfg.noiseEnabled then "noise_reduction:applied"
    else "noise_reduction:disabled"
  -- Stage 5: VAD
  let segs :=
    if cfg.vadEnabled then vadO audio5 sr2 else [⟨0, audio5.length⟩]
  let segCount : ℤ := if cfg.vadEnabled then (segs.length : ℤ) else 0
  let tag5 :=
    if cfg.vadEnabled then "vad:" ++ toString segs.length ++ "_segments"
    else "vad:disabled"
  -- Stage 6: silence compression
  let doSilence : Bool := cfg.silenceEnabled && !segs.isEmpty
  let compressed := compressSilences cfg.maxGapMs cfg.keepMs sr2 audio5 segs
  let audio6 := if doSilence then compressed.1 else audio5
  let removedMs : ℤ := if doSilence then compressed.2 else 0
  let tag6 :=
    if doSilence then
      "silence_compression:" ++ toString compressed.2 ++ "ms_removed"
    else "silence_compression:disabled"
  -- Stage 7: normalization
  let audio7 :=
    if cfg.normalizeEnabled then normalize (gainO audio6) audio6 else audio6
  let tag7 :=
    if cfg.normalizeEnabled then
      "normalized:" ++ toString cfg.targetDbfs ++ "dBFS"
    else "normalization:disabled"
  -- Export
  let wavBytes := exportWav audio7
  let finalMs : ℕ := audio7.length * 1000 / sr2
  (wavBytes,
   { original_duration_ms := (origMs : ℤ)
     final_duration_ms := (finalMs : ℤ)
     original_sample_rate := (sr1 : ℤ)
     original_channels := (channels : ℤ)
     speech_segments := segCount
     silence_removed_ms := removedMs
     noise_reduced := cfg.noiseEnabled
     normalized := cfg.normalizeEnabled
     stages_completed := [tag1, tag2, tag3, tag4, tag5, tag6, tag7] })

/-- The mandatory stages alone, in the spec's words: take the decoded
buffer, resample to the target rate (a no-op when the rates are equal),
downmix to mono, and encode as 16-bit PCM. -/
def mandatoryPipeline (cfg : PipeCfg) (decoded : Buf × ℕ × ℕ)
    (resampleO : Buf → ℕ → ℕ → Buf) : List ℤ :=
  let resampled :=
    if decoded.2.1 ≠ cfg.targetSampleRate then
      resampleO decoded.1 decoded.2.1 cfg.targetSampleRate
    else decoded.1
  exportWav (monoStage cfg.targetChannels resampled).flat

/-- C4: with every optional stage disabled (noise reduction, VAD, silence
compression, normalization all off), the bytes `process` returns equal,
sample for sample, the composition of the mandatory stages alone: decode,
resample to the target rate, downmix to mono, encode as 16-bit PCM. -/
theorem process_disabled_is_mandatory (tsr tch mg km : ℕ) (dbfs : ℚ)
    (decoded : Buf × ℕ × ℕ) (resampleO : Buf → ℕ → ℕ → Buf)
    (noiseO : List ℚ → ℕ → List ℚ) (vadO : List ℚ → ℕ → List Seg)
    (gainO : List ℚ → ℚ) :
    (process ⟨tsr, tch, false, false, false, false, mg, km, dbfs⟩ decoded
        resampleO noiseO vadO gainO).1 =
      mandatoryPipeline ⟨tsr, tch, false, false, false, false, mg, km, dbfs⟩
        decoded resampleO := by
  simp [process, mandatoryPipeline]

/-! ### `BlobInfo` (src/blob_handler.py lines 19-44)

`last_modified` (a wall-clock timestamp, never read by the worker or the
listener) is omitted. -/

structure BlobInfo where
  name : String
  container : String
  size : ℕ
  content_type : Option String
deriving Repr, DecidableEq

/-- Characters after the last occurrence of `c` (the whole list when `c`
does not occur). -/
def afterLastChar (c : Char) (cs : List Char) : List Char :=
  (cs.reverse.takeWhile fun x => x ≠ c).reverse

/-- Characters before the last occurrence of `c`. -/
def beforeLastChar (c : Char) (cs : List Char) : List Char :=
  cs.take (cs.length - ((afterLastChar c cs).length + 1))

/-- `full_path`: `f"{container}/{name}"`. -/
def BlobInfo.fullPath (b : BlobInfo) : String :=
  b.container ++ "/" ++ b.name

/-- `filename`: `name.rsplit("/", 1)[-1] if "/" in name else name`. -/
def BlobInfo.filename (b : BlobInfo) : String :=
  if b.name.data.contains '/' then String.mk (afterLastChar '/' b.name.data)
  else b.name

/-- `stem`: `filename.rsplit(".", 1)[0] if "." in filename else filename`. -/
def BlobInfo.stem (b : BlobInfo) : String :=
  if b.filename.data.contains '.' then
    String.mk (beforeLastChar '.' b.filename.data)
  else b.filename

/-! ### `AudioProcessingWorker.process_blob` (src/queue_listener.py lines 46-104) -/

/-- Mirrors the `ProcessingResult` dataclass.  `duration_seconds` (wall-clock
time) is external to the model and omitted. -/
structure ProcessingResult where
  success : Bool
  input_path : String
  output_path : Option String := none
  stats : Option ProcessingStats := none
  error : Option String := none
deriving Repr, DecidableEq

/-- The worker's process-lifetime counters. -/
structure WorkerState where
  processed_count : ℕ
  error_count : ℕ
deriving Repr, DecidableEq

/-- The external side effects a `process_blob` call can invoke, in order. -/
inductive Effect where
  | download
  | transform
  | upload
  | deleteSource
deriving Repr, DecidableEq

/-- Oracles and configuration for one `process_blob` call: each external
step either returns a value or raises (modelled as `Except` carrying the
exception's message `str(e)`). -/
structure WorkerEnv where
  downloadR : Except String (List ℕ)
  transformR : List ℕ → Except String (List ℤ × ProcessingStats)
  uploadR : String → List ℤ → Except String String
  deleteSource : Bool
  folderOutput : String

/-- Python `s.rstrip("/")`. -/
def rstripSlashes (s : String) : String :=
  String.mk (s.data.reverse.dropWhile fun c => c = '/').reverse

/-- The output blob name the worker builds:
`f"{output_folder}{blob_info.stem}.wav"` with
`output_folder = folder_output.rstrip("/") + "/" if folder_output else ""`. -/
def outputNameOf (env : WorkerEnv) (blob : BlobInfo) : String :=
  (if env.folderOutput = "" then "" else rstripSlashes env.folderOutput ++ "/")
    ++ blob.stem ++ ".wav"

/-- `AudioProcessingWorker.process_blob`: download, transform, upload,
optionally delete the source, maintaining the counters; any step's exception
is caught and turned into a failed `ProcessingResult` carrying its message
(the function is total — nothing propagates to the caller).  Returns the
result, the updated counters, and the effects invoked in order. -/
def processBlob (env : WorkerEnv) (st : WorkerState) (blob : BlobInfo) :
    ProcessingResult × WorkerState × List Effect :=
  let inputPath := blob.fullPath
  match env.downloadR with
  | .error m =>
    (⟨false, inputPath, none, none, some m⟩,
     ⟨st.processed_count, st.error_count + 1⟩, [.download])
  | .ok data =>
    match env.transformR data with
    | .error m =>
      (⟨false, inputPath, none, none, some m⟩,
       ⟨st.processed_count, st.error_count + 1⟩, [.download, .transform])
    | .ok pr =>
      match env.uploadR (outputNameOf env blob) pr.1 with
      | .error m =>
        (⟨false, inputPath, none, none, some m⟩,
         ⟨st.processed_count, st.error_count + 1⟩,
         [.download, .transform, .upload])
      | .ok outPath =>
        (⟨true, inputPath, some outPath, some pr.2, none⟩,
         ⟨st.processed_count + 1, st.error_count⟩,
         [.download, .transform, .upload] ++
           if env.deleteSource then [.deleteSource] else [])

/-- C2: every exception raised by a step of `process_blob` is absorbed:
the worker returns `success = False` with that exception's message, bumps
its error counter, and never lets the exception escape (the model is a total
function); in particular a failing download invokes neither upload nor
delete of the source.  A fully successful run returns `success = True`,
bumps the processed counter, and deletes the source exactly when
configured to. -/
theorem worker_absorbs_errors (env : WorkerEnv) (st : WorkerState)
    (blob : BlobInfo) :
    (∀ m, env.downloadR = .error m →
      (processBlob env st blob).1.success = false ∧
      (processBlob env st blob).1.error = some m ∧
      (processBlob env st blob).2.1.error_count = st.error_count + 1 ∧
      (processBlob env st blob).2.1.processed_count = st.processed_count ∧
      Effect.upload ∉ (processBlob env st blob).2.2 ∧
      Effect.deleteSource ∉ (processBlob env st blob).2.2)
    ∧ (∀ data m, env.downloadR = .ok data →
        env.transformR data = .error m →
        (processBlob env st blob).1.success = false ∧
        (processBlob env st blob).1.error = some m ∧
        (processBlob env st blob).2.1.error_count = st.error_count + 1 ∧
        Effect.upload ∉ (processBlob env st blob).2.2)
    ∧ (∀ data pr m, env.downloadR = .ok data →
        env.transformR data = .ok pr →
        env.uploadR (outputNameOf env blob) pr.1 = .error m →
        (processBlob env st blob).1.success = false ∧
        (processBlob env st blob).1.error = some m ∧
        (processBlob env st blob).2.1.error_count = st.error_count + 1 ∧
        Effect.deleteSource ∉ (processBlob env st blob).2.2)
    ∧ (∀ data pr p, env.downloadR = .ok data →
        env.transformR data = .ok pr →
        env.uploadR (outputNameOf env blob) pr.1 = .ok p →
        (processBlob env st blob).1.success = true ∧
        (processBlob env st blob).1.output_path = some p ∧
        (processBlob env st blob).1.error = none ∧
        (processBlob env st blob).2.1.processed_count =
          st.processed_count + 1 ∧
        (processBlob env st blob).2.1.error_count = st.error_count ∧
        (Effect.deleteSource ∈ (processBlob env st blob).2.2 ↔
          env.deleteSource = true)) := by
  refine ⟨?_, ?_, ?_, ?_⟩
  · intro m hm
    simp [processBlob, hm]
  · intro data m hd hm
    simp [processBlob, hd, hm]
  · intro data pr m hd ht hm
    simp [processBlob, hd, ht, hm]
  · intro data pr p hd ht hu
    cases hds : env.deleteSource <;> simp [processBlob, hd, ht, hu, hds]

/-- Concrete environment for the C2 witness: the download step raises. -/
def c2Env : WorkerEnv :=
  { downloadR := .error "boom"
    transformR := fun _ => .error "t"
    uploadR := fun _ _ => .error "u"
    deleteSource := true
    folderOutput := "processed" }

def c2Blob : BlobInfo :=
  { name := "incoming/a.wav", container := "audio-input", size := 3,
    content_type := none }

theorem worker_absorbs_errors_witness :
    (processBlob c2Env ⟨0, 0⟩ c2Blob).1.success = false ∧
    (processBlob c2Env ⟨0, 0⟩ c2Blob).1.error = some "boom" ∧
    (processBlob c2Env ⟨0, 0⟩ c2Blob).2.1.error_count = 1 ∧
    Effect.upload ∉ (processBlob c2Env ⟨0, 0⟩ c2Blob).2.2 ∧
    Effect.deleteSource ∉ (processBlob c2Env ⟨0, 0⟩ c2Blob).2.2 := by
  have h := (worker_absorbs_errors c2Env ⟨0, 0⟩ c2Blob).1 "boom" rfl
  exact ⟨h.1, h.2.1, h.2.2.1, h.2.2.2.2.1, h.2.2.2.2.2⟩

/-! ### `QueueListener._parse_message` / `process_messages`
(src/queue_listener.py lines 146-243)

Base64 and JSON decoding are external; a raw queue message is modelled as
either `malformed` (no JSON object could be decoded) or the decoded object's
relevant fields.  An absent key is `none`. -/

/-- The configuration the listener's filters read. -/
structure QueueCfg where
  containerInput : String
  folderInput : String
  supportedExtensions : List String
deriving Repr, DecidableEq

/-- The fields `_parse_message` reads from the decoded JSON object:
`eventType`, `subject`, `data.contentLength`, `data.contentType` (Event Grid
shape) and `container`, `blob`, `size`, `content_type` (simple shape). -/
structure MsgData where
  eventType : Option String := none
  subject : Option String := none
  contentLength : Option ℕ := none
  dataContentType : Option String := none
  container : Option String := none
  blob : Option String := none
  size : Option ℕ := none
  content_type : Option String := none
deriving Repr, DecidableEq

/-- A raw queue message after the decode attempt. -/
inductive MsgContent where
  | malformed
  | parsed (d : MsgData)
deriving Repr, DecidableEq

/-- Python `s.split(sep, 1)` for a nonempty separator, as the code uses it:
`some (before, after)` at the first occurrence of `sep`, `none` when `sep`
does not occur (the code's `len(parts) != 2` test). -/
def splitFirst (sep : List Char) : List Char → Option (List Char × List Char)
  | [] => none
  | c :: cs =>
    if sep.isPrefixOf (c :: cs) then some ([], (c :: cs).drop sep.length)
    else
      match splitFirst sep cs with
      | some p => some (c :: p.1, p.2)
      | none => none

/-- `f".{blob_name.rsplit('.', 1)[-1].lower()}" if "." in blob_name else ""`. -/
def extWithDot (name : String) : String :=
  if name.data.contains '.' then
    String.mk ('.' :: (afterLastChar '.' name.data).map Char.toLower)
  else ""

/-- `QueueListener._parse_message` on a decoded message: route the Event
Grid envelope (checking event type, splitting the subject on
`/containers/` then `/blobs/`, filtering by input container, input folder
and supported extension) or the simple `{container, blob}` envelope
(no filtering); everything else — including undecodable messages — yields
`None`. -/
def parseMessage (cfg : QueueCfg) : MsgContent → Option BlobInfo
  | .malformed => none
  | .parsed d =>
    match d.eventType with
    | some et =>
      if et ≠ "Microsoft.Storage.BlobCreated" then none
      else
        match splitFirst "/containers/".data (d.subject.getD "").data with
        | none => none
        | some p1 =>
          match splitFirst "/blobs/".data p1.2 with
          | none => none
          | some p2 =>
            let container := String.mk p2.1
            let blobName := String.mk p2.2
            if container ≠ cfg.containerInput then none
            else if cfg.folderInput != "" &&
                !(cfg.folderInput.data.isPrefixOf blobName.data) then none
            else if !(cfg.supportedExtensions.contains (extWithDot blobName))
              then none
            else
              some ⟨blobName, container, d.contentLength.getD 0,
                d.dataContentType⟩
    | none =>
      match d.container, d.blob with
      | some c, some b => some ⟨b, c, d.size.getD 0, d.content_type⟩
      | _, _ => none

/-- Whether one `process_blob` call on `blob` under `env` succeeds (all
three steps return ok); `ProcessingResult.success` equals this. -/
def blobSuccess (env : WorkerEnv) (blob : BlobInfo) : Bool :=
  match env.downloadR with
  | .error _ => false
  | .ok data =>
    match env.transformR data with
    | .error _ => false
    | .ok pr =>
      match env.uploadR (outputNameOf env blob) pr.1 with
      | .error _ => false
      | .ok _ => true

lemma processBlob_success (env : WorkerEnv) (st : WorkerState)
    (blob : BlobInfo) :
    (processBlob env st blob).1.success = blobSuccess env blob := by
  cases hd : env.downloadR with
  | error m => simp [processBlob, blobSuccess, hd]
  | ok data =>
    cases ht : env.transformR data with
    | error m => simp [processBlob, blobSuccess, hd, ht]
    | ok pr =>
      cases hu : env.uploadR (outputNameOf env blob) pr.1 with
      | error m => simp [processBlob, blobSuccess, hd, ht, hu]
      | ok p => simp [processBlob, blobSuccess, hd, ht, hu]

/-- `QueueListener.process_messages` over one received batch: parse each
message; a message that fails to parse or is filtered out is deleted at
once; a parsed message is dispatched to the worker, then deleted exactly
when the result succeeded.  `envOf` gives the worker-step oracles for each
dispatched blob.  Returns (number processed, deleted messages in order,
worker invocations in order, final worker counters). -/
def processMessages (cfg : QueueCfg) (envOf : BlobInfo → WorkerEnv) :
    WorkerState → List MsgContent →
      ℕ × List MsgContent × List BlobInfo × WorkerState
  | st, [] => (0, [], [], st)
  | st, m :: rest =>
    match parseMessage cfg m with
    | none =>
      let r := processMessages cfg envOf st rest
      (r.1, m :: r.2.1, r.2.2.1, r.2.2.2)
    | some b =>
      let pr := processBlob (envOf b) st b
      let r := processMessages cfg envOf pr.2.1 rest
      if pr.1.success then (r.1 + 1, m :: r.2.1, b :: r.2.2.1, r.2.2.2)
      else (r.1, r.2.1, b :: r.2.2.1, r.2.2.2)

/-- C5: in every batch, (a) the worker is invoked exactly on the messages
that parse and survive the filters, in order — malformed or filtered
messages never reach it; (b) a message is deleted iff it failed to parse or
its dispatch succeeded, so a failed item stays for redelivery; (c) the
processed count is the number of successful dispatches; (d) the worker's
counters evolve only through the dispatched blobs — they are unchanged by
messages the worker never sees. -/
theorem queue_dispatch_policy (cfg : QueueCfg)
    (envOf : BlobInfo → WorkerEnv) :
    ∀ (msgs : List MsgContent) (st : WorkerState),
      (processMessages cfg envOf st msgs).2.2.1 =
        msgs.filterMap (parseMessage cfg)
      ∧ (processMessages cfg envOf st msgs).2.1 =
        msgs.filter (fun m =>
          (parseMessage cfg m).elim true fun b => blobSuccess (envOf b) b)
      ∧ (processMessages cfg envOf st msgs).1 =
        (msgs.filterMap (parseMessage cfg)).countP
          (fun b => blobSuccess (envOf b) b)
      ∧ (processMessages cfg envOf st msgs).2.2.2 =
        (msgs.filterMap (parseMessage cfg)).foldl
          (fun s b => (processBlob (envOf b) s b).2.1) st := by
  intro msgs
  induction msgs with
  | nil => intro st; simp [processMessages]
  | cons m rest ih =>
    intro st
    cases hp : parseMessage cfg m with
    | none =>
      obtain ⟨i1, i2, i3, i4⟩ := ih st
      simp [processMessages, hp, i1, i2, i3, i4]
    | some b =>
      have hs := processBlob_success (envOf b) st b
      obtain ⟨i1, i2, i3, i4⟩ := ih ((processBlob (envOf b) st b).2.1)
      cases hb : blobSuccess (envOf b) b with
      | false =>
        rw [hb] at hs
        simp [processMessages, hp, hs, hb, i1, i2, i3, i4, List.countP_cons]
      | true =>
        rw [hb] at hs
        simp [processMessages, hp, hs, hb, i1, i2, i3, i4, List.countP_cons]

end SttAudio
